import Mathlib

/-!
Shallow embedding of SkySwitcher (src/main.py): the keystroke capture
buffer (`InputBuffer`) and the trigger-detection and replay engine
(`SkySwitcher.run`, `fix_last_word`, `replay_keys`, `send_combo`).
Time is modelled as a rational number; output-sink writes are modelled
as `(keycode, value)` pairs, where value 1 is press and 0 is release.
-/

namespace MagShift

/-! Key codes from linux input-event-codes.h, as exposed by evdev ecodes. -/

def KEY_ESC : Nat := 1
def KEY_1 : Nat := 2
def KEY_BACKSPACE : Nat := 14
def KEY_TAB : Nat := 15
def KEY_I : Nat := 23
def KEY_ENTER : Nat := 28
def KEY_LEFTCTRL : Nat := 29
def KEY_A : Nat := 30
def KEY_S : Nat := 31
def KEY_D : Nat := 32
def KEY_H : Nat := 35
def KEY_LEFTSHIFT : Nat := 42
def KEY_SLASH : Nat := 53
def KEY_RIGHTSHIFT : Nat := 54
def KEY_SPACE : Nat := 57
def KEY_F1 : Nat := 59
def KEY_HOME : Nat := 102
def KEY_UP : Nat := 103
def KEY_PAGEUP : Nat := 104
def KEY_LEFT : Nat := 105
def KEY_RIGHT : Nat := 106
def KEY_END : Nat := 107
def KEY_DOWN : Nat := 108
def KEY_PAGEDOWN : Nat := 109
def KEY_INSERT : Nat := 110
def KEY_DELETE : Nat := 111
def KEY_LEFTMETA : Nat := 125

/-! Configuration constants from main.py. -/

def DOUBLE_PRESS_DELAY : ℚ := 1/2

def TYPING_TIMEOUT : ℚ := 3

def LAYOUT_SWITCH_COMBO : List Nat := [KEY_LEFTMETA, KEY_SPACE]

/-- State of `InputBuffer` (main.py lines 121-174): the list of
`(keycode, is_shifted)` entries and the time of the last `add` call. -/
structure InputBuffer where
  buffer : List (Nat × Bool)
  last_key_time : ℚ
deriving DecidableEq

/-- Python `keycode in self.trackable_range` where
`trackable_range = range(KEY_1, KEY_SLASH + 1)`, together with the
explicit `keycode == KEY_SPACE` disjunct of line 150. -/
def trackableCode (keycode : Nat) : Prop :=
  keycode = KEY_SPACE ∨ (KEY_1 ≤ keycode ∧ keycode ≤ KEY_SLASH)

instance (keycode : Nat) : Decidable (trackableCode keycode) := by
  unfold trackableCode; infer_instance

/-- `InputBuffer.add` (main.py lines 131-153): clear on typing timeout,
set `last_key_time`, pop on backspace, append trackable keys with a
100-entry cap that evicts the oldest entry. -/
def InputBuffer.add (b : InputBuffer) (keycode : Nat) (is_shifted : Bool)
    (now : ℚ) : InputBuffer :=
  let buf := if now - b.last_key_time > TYPING_TIMEOUT then [] else b.buffer
  if keycode = KEY_BACKSPACE then
    { buffer := buf.dropLast, last_key_time := now }
  else if trackableCode keycode then
    let buf2 := buf ++ [(keycode, is_shifted)]
    { buffer := if 100 < buf2.length then buf2.drop 1 else buf2,
      last_key_time := now }
  else
    { buffer := buf, last_key_time := now }

/-- The backward scan of `get_last_phrase` (main.py lines 162-172),
written on the reversed buffer: collect items tail-first, keeping spaces
while no character has been found, stopping at the first space after a
character. The Python loop inserts each kept item at the front of
`result`, so the Python result is the reverse of this scan. -/
def phraseScan : List (Nat × Bool) → Bool → List (Nat × Bool)
  | [], _ => []
  | item :: rest, found_char =>
    if item.1 = KEY_SPACE then
      if found_char then []
      else item :: phraseScan rest found_char
    else
      item :: phraseScan rest true

/-- `InputBuffer.get_last_phrase` (main.py lines 155-174). -/
def InputBuffer.get_last_phrase (b : InputBuffer) : List (Nat × Bool) :=
  (phraseScan b.buffer.reverse false).reverse

/-- State of the `SkySwitcher` event loop (main.py lines 201-205):
the capture buffer plus the trigger-detection fields. -/
structure SwitcherState where
  input_buffer : InputBuffer
  last_press_time : ℚ
  trigger_released : Bool
  shift_pressed : Bool
deriving DecidableEq

def trigger_btn : Nat := KEY_RIGHTSHIFT

/-- `send_combo` (main.py lines 207-215): press every key in order,
then release in reverse order. -/
def send_combo (keys : List Nat) : List (Nat × Nat) :=
  keys.map (fun k => (k, 1)) ++ keys.reverse.map (fun k => (k, 0))

/-- `replay_keys` (main.py lines 217-232): each buffered key is replayed
as press/release, wrapped in a left-shift press/release when its
recorded shift state was held. -/
def replay_keys (key_sequence : List (Nat × Bool)) : List (Nat × Nat) :=
  key_sequence.flatMap fun ks =>
    (if ks.2 then [(KEY_LEFTSHIFT, 1)] else [])
      ++ [(ks.1, 1), (ks.1, 0)]
      ++ (if ks.2 then [(KEY_LEFTSHIFT, 0)] else [])

/-- `fix_last_word` (main.py lines 234-255) as the list of output-sink
writes it emits: nothing when the extracted phrase is empty; otherwise
one backspace press/release pair per extracted key, then the
layout-switch chord, then the replay of the extracted keys. The
function reads the buffer through `get_last_phrase` and never mutates
it. -/
def fix_last_word (b : InputBuffer) : List (Nat × Nat) :=
  let keys_to_replay := b.get_last_phrase
  if keys_to_replay.isEmpty then []
  else
    (List.replicate keys_to_replay.length
        ([(KEY_BACKSPACE, 1), (KEY_BACKSPACE, 0)] : List (Nat × Nat))).flatten
      ++ send_combo LAYOUT_SWITCH_COMBO
      ++ replay_keys keys_to_replay

/-- A key event as read in the loop (main.py line 267): code, value
(0 = up, 1 = down, 2 = repeat) and the wall-clock time at which the
event is processed (the `time.time()` calls in the handlers). -/
structure InEvent where
  code : Nat
  value : Nat
  time : ℚ

/-- Result of processing one event: the successor state, the
output-sink writes emitted, and how many corrections fired (0 or 1). -/
structure StepOut where
  state : SwitcherState
  out : List (Nat × Nat)
  fired : Nat
deriving DecidableEq

/-- One iteration of the `run` event loop body for an `EV_KEY` event
(main.py lines 268-292): update `shift_pressed` from shift keys, handle
the trigger key's up/down transitions (double-press detection), and for
any other key with value 1 or 2 record it into the buffer and reset a
pending `last_press_time`. -/
def processEvent (s : SwitcherState) (ev : InEvent) : StepOut :=
  let shift := if ev.code = KEY_LEFTSHIFT ∨ ev.code = KEY_RIGHTSHIFT
    then decide (ev.value = 1 ∨ ev.value = 2) else s.shift_pressed
  if ev.code = trigger_btn then
    if ev.value = 0 then
      StepOut.mk { s with shift_pressed := shift, trigger_released := true } [] 0
    else if ev.value = 1 then
      if ev.time - s.last_press_time < DOUBLE_PRESS_DELAY ∧ s.trigger_released then
        let s2 : SwitcherState :=
          { s with shift_pressed := shift, last_press_time := 0, trigger_released := false }
        StepOut.mk s2 (fix_last_word s.input_buffer) 1
      else
        let s2 : SwitcherState :=
          { s with shift_pressed := shift, last_press_time := ev.time, trigger_released := false }
        StepOut.mk s2 [] 0
    else
      StepOut.mk { s with shift_pressed := shift } [] 0
  else if ev.value = 1 ∨ ev.value = 2 then
    let lpt := if 0 < s.last_press_time then 0 else s.last_press_time
    let s2 : SwitcherState :=
      { s with shift_pressed := shift, last_press_time := lpt,
               input_buffer := s.input_buffer.add ev.code shift ev.time }
    StepOut.mk s2 [] 0
  else
    StepOut.mk { s with shift_pressed := shift } [] 0

/-- Run the loop over a list of events, returning the final state and
the total number of corrections fired. -/
def runEvents : SwitcherState → List InEvent → SwitcherState × Nat
  | s, [] => (s, 0)
  | s, ev :: rest =>
    let r := processEvent s ev
    let t := runEvents r.state rest
    (t.1, r.fired + t.2)

/-- The state at startup (main.py lines 201-205 and 126-128). -/
def initialState : SwitcherState :=
  { input_buffer := { buffer := [], last_key_time := 0 },
    last_press_time := 0, trigger_released := true, shift_pressed := false }

/-- A sequence of `add` calls on a fresh buffer: each element gives the
keycode, shift state, and time of one call. -/
def recordOps (ops : List (Nat × Bool × ℚ)) : InputBuffer :=
  ops.foldl (fun b o => b.add o.1 o.2.1 o.2.2)
    { buffer := [], last_key_time := 0 }

/-- The Reset-class key codes named by the spec: Esc, Tab, Enter and
the navigation keys (Home, arrows, PageUp/Down, End, Insert, Delete). -/
def resetClassKeys : List Nat :=
  [KEY_ESC, KEY_TAB, KEY_ENTER, KEY_HOME, KEY_UP, KEY_PAGEUP, KEY_LEFT,
   KEY_RIGHT, KEY_END, KEY_DOWN, KEY_PAGEDOWN, KEY_INSERT, KEY_DELETE]

/-! Helper lemmas about the backward scan of `get_last_phrase`. -/

theorem phraseScan_skips_space (x : Nat × Bool) (rest : List (Nat × Bool))
    (hx : x.1 = KEY_SPACE) : phraseScan (x :: rest) true = [] := by
  simp [phraseScan, hx]

theorem phraseScan_append_found (w rest : List (Nat × Bool))
    (hw : ∀ x ∈ w, x.1 ≠ KEY_SPACE) :
    phraseScan (w ++ rest) true = w ++ phraseScan rest true := by
  induction w with
  | nil => simp
  | cons a w ih =>
    have ha : a.1 ≠ KEY_SPACE := hw a (by simp)
    simp only [List.cons_append, phraseScan, if_neg ha]
    exact congrArg (List.cons a) (ih (fun x hx => hw x (by simp [hx])))

theorem phraseScan_append_start (w rest : List (Nat × Bool)) (hne : w ≠ [])
    (hw : ∀ x ∈ w, x.1 ≠ KEY_SPACE) :
    phraseScan (w ++ rest) false = w ++ phraseScan rest true := by
  cases w with
  | nil => exact absurd rfl hne
  | cons a w =>
    have ha : a.1 ≠ KEY_SPACE := hw a (by simp)
    simp only [List.cons_append, phraseScan, if_neg ha]
    exact congrArg (List.cons a)
      (phraseScan_append_found w rest (fun x hx => hw x (by simp [hx])))

theorem phraseScan_isTail (l : List (Nat × Bool)) (f : Bool) :
    ∃ q, l = phraseScan l f ++ q ∧ ∀ y qtl, q = y :: qtl → y.1 = KEY_SPACE := by
  induction l generalizing f with
  | nil => exact ⟨[], rfl, by simp⟩
  | cons a rest ih =>
    by_cases ha : a.1 = KEY_SPACE
    · cases f with
      | true =>
        refine ⟨a :: rest, by simp [phraseScan, ha], ?_⟩
        intro y qtl hq
        injection hq with h1 _
        rw [← h1]
        exact ha
      | false =>
        obtain ⟨q, hq, hqsp⟩ := ih false
        exact ⟨q, by simp [phraseScan, ha]; exact hq, hqsp⟩
    · obtain ⟨q, hq, hqsp⟩ := ih true
      exact ⟨q, by simp [phraseScan, ha]; exact hq, hqsp⟩

theorem phraseScan_all_space (l : List (Nat × Bool))
    (h : ∀ x ∈ l, x.1 = KEY_SPACE) : phraseScan l false = l := by
  induction l with
  | nil => rfl
  | cons a rest ih =>
    have ha : a.1 = KEY_SPACE := h a (by simp)
    have hstep : phraseScan (a :: rest) false = a :: phraseScan rest false := by
      simp [phraseScan, ha]
    rw [hstep]
    exact congrArg (List.cons a) (ih (fun x hx => h x (List.mem_cons_of_mem a hx)))

theorem phraseScan_space_output_total (l : List (Nat × Bool))
    (h : ∀ x ∈ phraseScan l false, x.1 = KEY_SPACE) : phraseScan l false = l := by
  induction l with
  | nil => rfl
  | cons a rest ih =>
    by_cases ha : a.1 = KEY_SPACE
    · have hstep : phraseScan (a :: rest) false = a :: phraseScan rest false := by
        simp [phraseScan, ha]
      rw [hstep] at h ⊢
      exact congrArg (List.cons a)
        (ih (fun x hx => h x (List.mem_cons_of_mem a hx)))
    · have hstep : phraseScan (a :: rest) false = a :: phraseScan rest true := by
        simp [phraseScan, ha]
      rw [hstep] at h
      exact absurd (h a (by simp)) ha

theorem phraseScan_found_no_space (l : List (Nat × Bool)) :
    ∀ x ∈ phraseScan l true, x.1 ≠ KEY_SPACE := by
  induction l with
  | nil => simp [phraseScan]
  | cons a rest ih =>
    intro x hx
    by_cases ha : a.1 = KEY_SPACE
    · simp [phraseScan, ha] at hx
    · simp only [phraseScan, if_neg ha, List.mem_cons] at hx
      rcases hx with hx | hx
      · rw [hx]; exact ha
      · exact ih x hx

theorem phraseScan_shape (l : List (Nat × Bool)) :
    ∃ sp w, phraseScan l false = sp ++ w ∧
      (∀ x ∈ sp, x.1 = KEY_SPACE) ∧ (∀ x ∈ w, x.1 ≠ KEY_SPACE) := by
  induction l with
  | nil => exact ⟨[], [], rfl, by simp, by simp⟩
  | cons a rest ih =>
    by_cases ha : a.1 = KEY_SPACE
    · obtain ⟨sp, w, heq, hsp, hw⟩ := ih
      refine ⟨a :: sp, w, ?_, ?_, hw⟩
      · simp [phraseScan, ha, heq]
      · intro x hx
        rcases List.mem_cons.1 hx with hx | hx
        · rw [hx]; exact ha
        · exact hsp x hx
    · refine ⟨[], a :: phraseScan rest true, ?_, by simp, ?_⟩
      · simp [phraseScan, ha]
      · intro x hx
        rcases List.mem_cons.1 hx with hx | hx
        · rw [hx]; exact ha
        · exact phraseScan_found_no_space rest x hx

/-- C1: the claim predicts `[('h',F),('i',F),(' ',F)]` extracts to
`[('h',F),('i',F)]` with the trailing space skipped; the code keeps the
trailing space in the result (`result.insert(0, item)` on the not-yet
`found_char` branch), so the space is a member of the returned
sequence. -/
theorem c1_counterexample :
    InputBuffer.get_last_phrase ⟨[(KEY_H, false), (KEY_I, false), (KEY_SPACE, false)], 0⟩
        = [(KEY_H, false), (KEY_I, false), (KEY_SPACE, false)] ∧
      (KEY_SPACE, false) ∈ InputBuffer.get_last_phrase
        ⟨[(KEY_H, false), (KEY_I, false), (KEY_SPACE, false)], 0⟩ := by
  constructor <;> decide

/-- C1 (amended): for a buffer whose last entry is a single space
preceded by at least one non-space key, `get_last_phrase` returns the
run of non-space keys immediately preceding that space with the
trailing space included at the end (the space is kept, not skipped). -/
theorem c1_theorem (l w : List (Nat × Bool)) (sh : Bool) (t : ℚ)
    (hne : w ≠ []) (hw : ∀ x ∈ w, x.1 ≠ KEY_SPACE)
    (hl : l = [] ∨ ∃ l2 x, l = l2 ++ [x] ∧ x.1 = KEY_SPACE) :
    InputBuffer.get_last_phrase ⟨l ++ w ++ [(KEY_SPACE, sh)], t⟩
      = w ++ [(KEY_SPACE, sh)] := by
  unfold InputBuffer.get_last_phrase
  have hrev : (l ++ w ++ [(KEY_SPACE, sh)]).reverse
      = (KEY_SPACE, sh) :: (w.reverse ++ l.reverse) := by
    simp
  rw [hrev]
  have hstep : phraseScan ((KEY_SPACE, sh) :: (w.reverse ++ l.reverse)) false
      = (KEY_SPACE, sh) :: phraseScan (w.reverse ++ l.reverse) false := by
    simp [phraseScan]
  rw [hstep]
  have hwrev : ∀ x ∈ w.reverse, x.1 ≠ KEY_SPACE :=
    fun x hx => hw x (List.mem_reverse.1 hx)
  rw [phraseScan_append_start w.reverse l.reverse (by simpa using hne) hwrev]
  have htail : phraseScan l.reverse true = [] := by
    rcases hl with hl | ⟨l2, x, hl2, hx⟩
    · simp [hl, phraseScan]
    · rw [hl2]
      simp only [List.reverse_append, List.reverse_singleton, List.singleton_append]
      exact phraseScan_skips_space x l2.reverse hx
  rw [htail]
  simp

/-- C1 witness: concrete instance with buffer
`[space, 'h', space]`. -/
theorem c1_witness :
    InputBuffer.get_last_phrase
        ⟨[(KEY_SPACE, true)] ++ [(KEY_H, false)] ++ [(KEY_SPACE, false)], 0⟩
      = [(KEY_H, false)] ++ [(KEY_SPACE, false)] :=
  c1_theorem [(KEY_SPACE, true)] [(KEY_H, false)] false 0 (by decide)
    (by decide) (Or.inr ⟨[], (KEY_SPACE, true), by simp, rfl⟩)

/-- C3: the claim predicts that a buffer containing only spaces yields
an empty extracted word; the code returns the spaces themselves (they
are collected while no character has been found). -/
theorem c3_counterexample :
    InputBuffer.get_last_phrase ⟨[(KEY_SPACE, false)], 0⟩ = [(KEY_SPACE, false)] ∧
      InputBuffer.get_last_phrase ⟨[(KEY_SPACE, false)], 0⟩ ≠ [] := by
  constructor <;> decide

/-- C3 (amended): `get_last_phrase` returns a suffix of the buffer of
the form w ++ sp where sp is the buffer's maximal trailing run of
spaces and w is the maximal run of non-space keys immediately
preceding it: the decomposition l = p ++ w ++ sp satisfies that w is
empty only when the dropped prefix p is empty, and that p is empty or
ends in a space (so w and sp cannot be extended leftwards — the
result's extent is pinned). In particular a buffer containing only
spaces yields the entire buffer, not the empty sequence, and then the
result leads with a space. -/
theorem c3_theorem (l : List (Nat × Bool)) (t : ℚ) :
    (∃ p w sp, p ++ (w ++ sp) = l ∧
      InputBuffer.get_last_phrase ⟨l, t⟩ = w ++ sp ∧
      (∀ x ∈ w, x.1 ≠ KEY_SPACE) ∧ (∀ x ∈ sp, x.1 = KEY_SPACE) ∧
      (w = [] → p = []) ∧
      (p = [] ∨ ∃ p2 y, p = p2 ++ [y] ∧ y.1 = KEY_SPACE)) ∧
    ((∀ x ∈ l, x.1 = KEY_SPACE) → InputBuffer.get_last_phrase ⟨l, t⟩ = l) := by
  constructor
  · obtain ⟨sp, w, heq, hsp, hw⟩ := phraseScan_shape l.reverse
    obtain ⟨q, hq, hqsp⟩ := phraseScan_isTail l.reverse false
    refine ⟨q.reverse, w.reverse, sp.reverse, ?_, ?_, ?_, ?_, ?_, ?_⟩
    · have : l.reverse.reverse = ((sp ++ w) ++ q).reverse := by
        rw [← heq, ← hq]
      simpa using this.symm
    · unfold InputBuffer.get_last_phrase
      rw [heq]
      simp
    · exact fun x hx => hw x (List.mem_reverse.1 hx)
    · exact fun x hx => hsp x (List.mem_reverse.1 hx)
    · intro hwnil
      have hw0 : w = [] := by simpa using hwnil
      have hall : ∀ x ∈ phraseScan l.reverse false, x.1 = KEY_SPACE := by
        rw [heq, hw0]
        simpa using hsp
      have hfull := phraseScan_space_output_total l.reverse hall
      rw [hfull] at hq
      have hlen : l.reverse.length = l.reverse.length + q.length := by
        conv_lhs => rw [hq]
        simp
      have hq0 : q = [] := List.length_eq_zero.1 (by omega)
      simp [hq0]
    · cases q with
      | nil => exact Or.inl rfl
      | cons y qtl =>
        refine Or.inr ⟨qtl.reverse, y, by simp, hqsp y qtl rfl⟩
  · intro hall
    have hfull : phraseScan l.reverse false = l.reverse :=
      phraseScan_all_space l.reverse (fun x hx => hall x (List.mem_reverse.1 hx))
    unfold InputBuffer.get_last_phrase
    rw [hfull]
    simp

/-- C3 witness: a buffer of two spaces extracts to the entire buffer. -/
theorem c3_witness :
    InputBuffer.get_last_phrase ⟨[(KEY_SPACE, false), (KEY_SPACE, true)], 0⟩
      = [(KEY_SPACE, false), (KEY_SPACE, true)] :=
  (c3_theorem [(KEY_SPACE, false), (KEY_SPACE, true)] 0).2 (by decide)

/-! Helper lemmas about `InputBuffer.add`. -/

theorem add_preserves_codes (b : InputBuffer) (c : Nat) (sh : Bool) (t : ℚ)
    (hb : ∀ x ∈ b.buffer, trackableCode x.1) :
    ∀ x ∈ (b.add c sh t).buffer, trackableCode x.1 := by
  intro x hx
  unfold InputBuffer.add at hx
  have hbuf : ∀ y ∈ (if t - b.last_key_time > TYPING_TIMEOUT then [] else b.buffer),
      trackableCode y.1 := by
    split
    · simp
    · exact hb
  have hcap : ∀ (l : List (Nat × Bool)), x ∈ (if 100 < l.length then l.drop 1 else l) → x ∈ l := by
    intro l h
    split at h
    · exact List.drop_subset 1 l h
    · exact h
  by_cases hbs : c = KEY_BACKSPACE
  · simp only [hbs, if_pos rfl] at hx
    exact hbuf x (List.dropLast_subset _ hx)
  · by_cases htr : trackableCode c
    · simp only [if_neg hbs, if_pos htr] at hx
      have hx2 := hcap _ hx
      rcases List.mem_append.1 hx2 with hx3 | hx3
      · exact hbuf x hx3
      · rw [List.mem_singleton.1 hx3]; exact htr
    · simp only [if_neg hbs, if_neg htr] at hx
      exact hbuf x hx

theorem recordOps_codes_aux (ops : List (Nat × Bool × ℚ)) :
    ∀ b : InputBuffer, (∀ x ∈ b.buffer, trackableCode x.1) →
      ∀ x ∈ (ops.foldl (fun b o => b.add o.1 o.2.1 o.2.2) b).buffer,
        trackableCode x.1 := by
  induction ops with
  | nil => intro b hb; simpa using hb
  | cons o ops ih =>
    intro b hb
    exact ih _ (add_preserves_codes b o.1 o.2.1 o.2.2 hb)

/-- C2: the claim predicts navigation and control keys such as Enter
never appear as entries of the buffer; but Enter (code 28) lies inside
`trackable_range = range(KEY_1, KEY_SLASH + 1)`, so a Down event of
Enter in the loop records it into the buffer. -/
theorem c2_counterexample :
    (processEvent ⟨⟨[], 0⟩, 0, true, false⟩ ⟨KEY_ENTER, 1, 1⟩).state.input_buffer.buffer
      = [(KEY_ENTER, false)] := by
  norm_num [processEvent, trigger_btn, InputBuffer.add, trackableCode, KEY_SPACE, KEY_1,
    KEY_SLASH, KEY_BACKSPACE, KEY_ENTER, KEY_RIGHTSHIFT, KEY_LEFTSHIFT, TYPING_TIMEOUT]

/-- C2 (amended): after any sequence of `add` calls on a fresh buffer,
every entry's code lies in the code range `KEY_1..KEY_SLASH` (2..53) or
is space (57). This range covers letters, digits and the punctuation
row but also Tab (15), Enter (28), left Ctrl (29) and left Shift (42),
which therefore can appear; keys outside the range — Esc (1), the
right-shift trigger (54), navigation keys and function keys — never
appear. -/
theorem c2_theorem (ops : List (Nat × Bool × ℚ)) :
    ∀ x ∈ (recordOps ops).buffer,
      x.1 = KEY_SPACE ∨ (KEY_1 ≤ x.1 ∧ x.1 ≤ KEY_SLASH) := by
  intro x hx
  exact recordOps_codes_aux ops ⟨[], 0⟩ (by simp) x hx

/-- C2 witness: recording Enter then a letter on a fresh buffer; both
resulting entries lie in the trackable code range. -/
theorem c2_witness :
    ((KEY_ENTER, false) : Nat × Bool).1 = KEY_SPACE ∨
      (KEY_1 ≤ ((KEY_ENTER, false) : Nat × Bool).1 ∧
        ((KEY_ENTER, false) : Nat × Bool).1 ≤ KEY_SLASH) :=
  c2_theorem [(KEY_ENTER, false, 1)] (KEY_ENTER, false)
    (by norm_num [recordOps, InputBuffer.add, trackableCode, KEY_SPACE, KEY_1, KEY_SLASH,
      KEY_BACKSPACE, KEY_ENTER, TYPING_TIMEOUT])

/-- C5: the claim predicts `add` is a complete no-op for a
non-trackable code; but on input Esc (code 1) at time 5 against a
buffer last touched at time 0, the buffer is cleared by the typing
timeout and `last_key_time` is updated to 5. -/
theorem c5_counterexample :
    (InputBuffer.add ⟨[(KEY_A, false)], 0⟩ KEY_ESC false 5).buffer ≠ [(KEY_A, false)] ∧
      (InputBuffer.add ⟨[(KEY_A, false)], 0⟩ KEY_ESC false 5).last_key_time ≠ 0 := by
  have h : InputBuffer.add ⟨[(KEY_A, false)], 0⟩ KEY_ESC false 5 = ⟨[], 5⟩ := by
    norm_num [InputBuffer.add, trackableCode, KEY_SPACE, KEY_1, KEY_SLASH, KEY_BACKSPACE,
      KEY_ESC, TYPING_TIMEOUT]
  rw [h]
  norm_num

/-- C5 (amended): for a code that is neither trackable nor backspace,
`add` never appends anything, but it still sets `last_key_time := now`
unconditionally, and it still clears the buffer when the gap since the
last record exceeds the typing timeout; the buffer contents are
untouched only within the timeout. -/
theorem c5_theorem (b : InputBuffer) (code : Nat) (sh : Bool) (now : ℚ)
    (hbs : code ≠ KEY_BACKSPACE) (hnt : ¬ trackableCode code) :
    (b.add code sh now).last_key_time = now ∧
      (b.add code sh now).buffer =
        (if now - b.last_key_time > TYPING_TIMEOUT then [] else b.buffer) := by
  constructor <;> simp [InputBuffer.add, hbs, hnt]

/-- C5 witness: Esc against a stale buffer updates the time and clears
the history. -/
theorem c5_witness :
    (InputBuffer.add ⟨[(KEY_A, false)], 0⟩ KEY_ESC false 5).last_key_time = 5 ∧
      (InputBuffer.add ⟨[(KEY_A, false)], 0⟩ KEY_ESC false 5).buffer =
        (if (5:ℚ) - (⟨[(KEY_A, false)], 0⟩ : InputBuffer).last_key_time > TYPING_TIMEOUT
          then [] else [(KEY_A, false)]) :=
  c5_theorem ⟨[(KEY_A, false)], 0⟩ KEY_ESC false 5
    (by norm_num [KEY_ESC, KEY_BACKSPACE])
    (by norm_num [trackableCode, KEY_ESC, KEY_SPACE, KEY_1, KEY_SLASH])

/-- C8: a gap longer than the typing timeout between two accepted
records clears the prior history before the new key is recorded:
recording a then b in one session, then c after the timeout, extracts
exactly the singleton c. -/
theorem c8_theorem (a b c : Nat) (sa sb sc : Bool) (t1 t2 t3 : ℚ)
    (hat : trackableCode a) (hab : a ≠ KEY_BACKSPACE)
    (hbt : trackableCode b) (hbb : b ≠ KEY_BACKSPACE)
    (hct : trackableCode c) (hcb : c ≠ KEY_BACKSPACE)
    (h12 : t2 - t1 ≤ TYPING_TIMEOUT) (h23 : TYPING_TIMEOUT < t3 - t2) :
    ((((InputBuffer.mk [] 0).add a sa t1).add b sb t2).add c sc t3).get_last_phrase
      = [(c, sc)] := by
  have A1 : (InputBuffer.mk [] 0).add a sa t1 = ⟨[(a, sa)], t1⟩ := by
    simp [InputBuffer.add, hab, hat]
  have A2 : (⟨[(a, sa)], t1⟩ : InputBuffer).add b sb t2 = ⟨[(a, sa), (b, sb)], t2⟩ := by
    have hno : ¬(t2 - t1 > TYPING_TIMEOUT) := not_lt.2 h12
    simp [InputBuffer.add, hbb, hbt, hno]
  have A3 : (⟨[(a, sa), (b, sb)], t2⟩ : InputBuffer).add c sc t3 = ⟨[(c, sc)], t3⟩ := by
    simp [InputBuffer.add, hcb, hct, h23]
  rw [A1, A2, A3]
  by_cases hc57 : c = KEY_SPACE
  · simp [InputBuffer.get_last_phrase, phraseScan, hc57]
  · simp [InputBuffer.get_last_phrase, phraseScan, hc57]

/-- C8 witness: 'a' at t=1, 's' at t=2, 'd' at t=6 (gap 4 > 3 s)
extracts exactly ['d']. -/
theorem c8_witness :
    ((((InputBuffer.mk [] 0).add KEY_A false 1).add KEY_S false 2).add KEY_D false 6).get_last_phrase
      = [(KEY_D, false)] :=
  c8_theorem KEY_A KEY_S KEY_D false false false 1 2 6
    (by norm_num [trackableCode, KEY_A, KEY_SPACE, KEY_1, KEY_SLASH])
    (by norm_num [KEY_A, KEY_BACKSPACE])
    (by norm_num [trackableCode, KEY_S, KEY_SPACE, KEY_1, KEY_SLASH])
    (by norm_num [KEY_S, KEY_BACKSPACE])
    (by norm_num [trackableCode, KEY_D, KEY_SPACE, KEY_1, KEY_SLASH])
    (by norm_num [KEY_D, KEY_BACKSPACE])
    (by norm_num [TYPING_TIMEOUT]) (by norm_num [TYPING_TIMEOUT])

/-! Step lemmas for the event-loop body `processEvent`. -/

theorem processEvent_trigger_up (s : SwitcherState) (t : ℚ) :
    processEvent s ⟨KEY_RIGHTSHIFT, 0, t⟩ =
      StepOut.mk { s with shift_pressed := false, trigger_released := true } [] 0 := by
  simp [processEvent, trigger_btn, KEY_RIGHTSHIFT, KEY_LEFTSHIFT]

theorem processEvent_trigger_fire (s : SwitcherState) (t : ℚ)
    (h1 : t - s.last_press_time < DOUBLE_PRESS_DELAY) (h2 : s.trigger_released = true) :
    processEvent s ⟨KEY_RIGHTSHIFT, 1, t⟩ =
      StepOut.mk
        { s with shift_pressed := true, last_press_time := 0, trigger_released := false }
        (fix_last_word s.input_buffer) 1 := by
  simp [processEvent, trigger_btn, KEY_RIGHTSHIFT, KEY_LEFTSHIFT, h1, h2]

theorem processEvent_trigger_arm (s : SwitcherState) (t : ℚ)
    (h : ¬(t - s.last_press_time < DOUBLE_PRESS_DELAY ∧ s.trigger_released = true)) :
    processEvent s ⟨KEY_RIGHTSHIFT, 1, t⟩ =
      StepOut.mk
        { s with shift_pressed := true, last_press_time := t, trigger_released := false }
        [] 0 := by
  simp only [processEvent, trigger_btn, KEY_RIGHTSHIFT, KEY_LEFTSHIFT]
  norm_num
  intro hlt
  rcases Bool.eq_false_or_eq_true s.trigger_released with hb | hb
  · exact absurd ⟨hlt, hb⟩ h
  · exact hb

theorem processEvent_key_down (s : SwitcherState) (c : Nat) (t : ℚ)
    (hc : c ≠ KEY_RIGHTSHIFT) (hs : c ≠ KEY_LEFTSHIFT) :
    processEvent s ⟨c, 1, t⟩ =
      StepOut.mk
        { s with input_buffer := s.input_buffer.add c s.shift_pressed t,
                 last_press_time :=
                   if 0 < s.last_press_time then 0 else s.last_press_time }
        [] 0 := by
  have hc54 : c ≠ 54 := by simpa [KEY_RIGHTSHIFT] using hc
  have hs42 : c ≠ 42 := by simpa [KEY_LEFTSHIFT] using hs
  simp [processEvent, trigger_btn, KEY_RIGHTSHIFT, KEY_LEFTSHIFT, hc54, hs42]

/-- C4: the claim predicts a Down event of a Reset-class key clears the
buffer wholesale; processing an Esc Down on a state whose buffer holds
one letter leaves the buffer untouched (the loop has no reset-key
clearing: it was replaced by the time-based reset). -/
theorem c4_counterexample :
    (processEvent ⟨⟨[(KEY_A, false)], 10⟩, 1, true, false⟩
        ⟨KEY_ESC, 1, 11⟩).state.input_buffer.buffer = [(KEY_A, false)] ∧
      (processEvent ⟨⟨[(KEY_A, false)], 10⟩, 1, true, false⟩
        ⟨KEY_ESC, 1, 11⟩).state.input_buffer.buffer ≠ [] := by
  have h : (processEvent ⟨⟨[(KEY_A, false)], 10⟩, 1, true, false⟩
      ⟨KEY_ESC, 1, 11⟩).state.input_buffer.buffer = [(KEY_A, false)] := by
    norm_num [processEvent, trigger_btn, InputBuffer.add, trackableCode, KEY_SPACE, KEY_1,
      KEY_SLASH, KEY_BACKSPACE, KEY_ESC, KEY_RIGHTSHIFT, KEY_LEFTSHIFT, TYPING_TIMEOUT]
  exact ⟨h, by rw [h]; simp⟩

/-- C4 (amended): processing a Down event of any Reset-class key
(Esc, Tab, Enter, or a navigation key) does not clear the Capture
Buffer; like any non-trigger key Down it cancels a pending trigger arm
(last_press_time is reset to 0) and fires no correction. Within the
typing timeout and below the 100-entry cap, Tab and Enter — which lie
inside the trackable code range — are appended to the buffer as
ordinary entries, while Esc and the navigation keys leave the buffer
contents entirely unchanged. -/
theorem c4_theorem (s : SwitcherState) (t : ℚ) (c : Nat)
    (hc : c ∈ resetClassKeys)
    (h0 : 0 ≤ s.last_press_time)
    (ht : ¬(t - s.input_buffer.last_key_time > TYPING_TIMEOUT))
    (hlen : s.input_buffer.buffer.length < 100) :
    (processEvent s ⟨c, 1, t⟩).state.last_press_time = 0 ∧
    (processEvent s ⟨c, 1, t⟩).fired = 0 ∧
    ((c = KEY_TAB ∨ c = KEY_ENTER) →
      (processEvent s ⟨c, 1, t⟩).state.input_buffer.buffer
        = s.input_buffer.buffer ++ [(c, s.shift_pressed)]) ∧
    (¬(c = KEY_TAB ∨ c = KEY_ENTER) →
      (processEvent s ⟨c, 1, t⟩).state.input_buffer.buffer = s.input_buffer.buffer) := by
  have hfacts : c ≠ KEY_RIGHTSHIFT ∧ c ≠ KEY_LEFTSHIFT ∧ c ≠ KEY_BACKSPACE ∧
      ((c = KEY_TAB ∨ c = KEY_ENTER) ∨ ¬ trackableCode c) := by
    fin_cases hc <;>
      norm_num [KEY_RIGHTSHIFT, KEY_LEFTSHIFT, KEY_BACKSPACE, KEY_TAB, KEY_ENTER,
        trackableCode, KEY_SPACE, KEY_1, KEY_SLASH, KEY_ESC, KEY_HOME, KEY_UP,
        KEY_PAGEUP, KEY_LEFT, KEY_RIGHT, KEY_END, KEY_DOWN, KEY_PAGEDOWN,
        KEY_INSERT, KEY_DELETE]
  obtain ⟨h54, h42, h14, hcls⟩ := hfacts
  rw [processEvent_key_down s c t h54 h42]
  have hlpt : (if 0 < s.last_press_time then 0 else s.last_press_time) = 0 := by
    by_cases hp : 0 < s.last_press_time
    · simp [hp]
    · simp [hp, le_antisymm (not_lt.1 hp) h0]
  refine ⟨hlpt, rfl, ?_, ?_⟩
  · intro hte
    have htr : trackableCode c := by
      rcases hte with rfl | rfl <;>
        norm_num [trackableCode, KEY_SPACE, KEY_1, KEY_SLASH, KEY_TAB, KEY_ENTER]
    show (s.input_buffer.add c s.shift_pressed t).buffer = _
    simp [InputBuffer.add, h14, htr, ht]
    intro h
    exact absurd h (by omega)
  · intro hte
    have hnt : ¬ trackableCode c := by
      rcases hcls with h | h
      · exact absurd h hte
      · exact h
    show (s.input_buffer.add c s.shift_pressed t).buffer = _
    simp [InputBuffer.add, h14, hnt, ht]

/-- C4 witness: Tab Down at t=11 on a state armed at t=1 whose buffer
holds a letter recorded at t=10: the arm is cancelled and the buffer
is not cleared — Tab is appended after the letter. -/
theorem c4_witness :
    (processEvent ⟨⟨[(KEY_A, false)], 10⟩, 1, true, false⟩
        ⟨KEY_TAB, 1, 11⟩).state.last_press_time = 0 ∧
    (processEvent ⟨⟨[(KEY_A, false)], 10⟩, 1, true, false⟩ ⟨KEY_TAB, 1, 11⟩).fired = 0 ∧
    ((KEY_TAB = KEY_TAB ∨ KEY_TAB = KEY_ENTER) →
      (processEvent ⟨⟨[(KEY_A, false)], 10⟩, 1, true, false⟩
          ⟨KEY_TAB, 1, 11⟩).state.input_buffer.buffer
        = [(KEY_A, false)] ++ [(KEY_TAB, false)]) ∧
    (¬(KEY_TAB = KEY_TAB ∨ KEY_TAB = KEY_ENTER) →
      (processEvent ⟨⟨[(KEY_A, false)], 10⟩, 1, true, false⟩
          ⟨KEY_TAB, 1, 11⟩).state.input_buffer.buffer = [(KEY_A, false)]) :=
  c4_theorem ⟨⟨[(KEY_A, false)], 10⟩, 1, true, false⟩ 11 KEY_TAB (by decide)
    (by norm_num) (by norm_num [TYPING_TIMEOUT]) (by norm_num)

/-- C6: with the buffer holding h then i (both unshifted), a firing
trigger press emits exactly 2 backspace press/release pairs, then the
layout-switch chord (LeftMeta and Space pressed in order, released in
reverse order), then h and i each as plain press/release pairs, and the
buffer afterwards still holds the same two entries. -/
theorem c6_theorem :
    processEvent ⟨⟨[(KEY_H, false), (KEY_I, false)], 10⟩, 10, true, false⟩
        ⟨KEY_RIGHTSHIFT, 1, 41/4⟩ =
      StepOut.mk ⟨⟨[(KEY_H, false), (KEY_I, false)], 10⟩, 0, false, true⟩
        [(KEY_BACKSPACE, 1), (KEY_BACKSPACE, 0), (KEY_BACKSPACE, 1), (KEY_BACKSPACE, 0),
         (KEY_LEFTMETA, 1), (KEY_SPACE, 1), (KEY_SPACE, 0), (KEY_LEFTMETA, 0),
         (KEY_H, 1), (KEY_H, 0), (KEY_I, 1), (KEY_I, 0)] 1 := by
  norm_num [processEvent, trigger_btn, fix_last_word, InputBuffer.get_last_phrase,
    phraseScan, send_combo, replay_keys, LAYOUT_SWITCH_COMBO, KEY_SPACE, KEY_BACKSPACE,
    KEY_RIGHTSHIFT, KEY_LEFTSHIFT, KEY_LEFTMETA, KEY_H, KEY_I, DOUBLE_PRESS_DELAY,
    List.flatMap, List.flatten]

/-- C10: any non-trigger key event with value Down (1) or Repeat (2)
resets a pending last_press_time to 0 and fires no correction, whatever
the key — trackable or not (e.g. a function key). -/
theorem c10_theorem (s : SwitcherState) (ev : InEvent)
    (h0 : 0 ≤ s.last_press_time) (hc : ev.code ≠ trigger_btn)
    (hv : ev.value = 1 ∨ ev.value = 2) :
    (processEvent s ev).state.last_press_time = 0 ∧ (processEvent s ev).fired = 0 := by
  have hstep : processEvent s ev =
      StepOut.mk
        { s with
            shift_pressed :=
              if ev.code = KEY_LEFTSHIFT ∨ ev.code = KEY_RIGHTSHIFT
                then decide (ev.value = 1 ∨ ev.value = 2) else s.shift_pressed,
            input_buffer := s.input_buffer.add ev.code
              (if ev.code = KEY_LEFTSHIFT ∨ ev.code = KEY_RIGHTSHIFT
                then decide (ev.value = 1 ∨ ev.value = 2) else s.shift_pressed) ev.time,
            last_press_time :=
              if 0 < s.last_press_time then 0 else s.last_press_time }
        [] 0 := by
    simp [processEvent, hc, hv]
  rw [hstep]
  refine ⟨?_, rfl⟩
  by_cases hp : 0 < s.last_press_time
  · simp [hp]
  · simp [hp, le_antisymm (not_lt.1 hp) h0]

/-- C10 witness: an F1 Down event (neither trackable, reset-class nor
the trigger) on a state armed at t=10 cancels the arm. -/
theorem c10_witness :
    (processEvent ⟨⟨[], 0⟩, 10, true, false⟩ ⟨KEY_F1, 1, 20⟩).state.last_press_time = 0 ∧
      (processEvent ⟨⟨[], 0⟩, 10, true, false⟩ ⟨KEY_F1, 1, 20⟩).fired = 0 :=
  c10_theorem ⟨⟨[], 0⟩, 10, true, false⟩ ⟨KEY_F1, 1, 20⟩ (by norm_num)
    (by norm_num [KEY_F1, trigger_btn, KEY_RIGHTSHIFT]) (Or.inl rfl)

/-- C7: two trigger Downs separated by less than the double-press
window, with a clean Up between them and no other key in between, fire
exactly one correction, and a third rapid press does not re-fire
(last_press_time was cleared to 0, so it cannot pair with the fired
press); the third press does itself arm, so a fourth press within the
window after a clean release fires a second correction. -/
theorem c7_theorem (t1 t2 t3 t4 : ℚ) (h1 : DOUBLE_PRESS_DELAY ≤ t1) (h2 : t1 ≤ t2)
    (h3 : t2 - t1 < DOUBLE_PRESS_DELAY) (h4 : t2 ≤ t3)
    (h5 : t4 - t3 < DOUBLE_PRESS_DELAY) :
    (runEvents initialState
        [⟨KEY_RIGHTSHIFT, 1, t1⟩, ⟨KEY_RIGHTSHIFT, 0, t1⟩, ⟨KEY_RIGHTSHIFT, 1, t2⟩,
         ⟨KEY_RIGHTSHIFT, 0, t2⟩, ⟨KEY_RIGHTSHIFT, 1, t3⟩]).2 = 1 ∧
      (runEvents initialState
        [⟨KEY_RIGHTSHIFT, 1, t1⟩, ⟨KEY_RIGHTSHIFT, 0, t1⟩, ⟨KEY_RIGHTSHIFT, 1, t2⟩,
         ⟨KEY_RIGHTSHIFT, 0, t2⟩, ⟨KEY_RIGHTSHIFT, 1, t3⟩, ⟨KEY_RIGHTSHIFT, 0, t3⟩,
         ⟨KEY_RIGHTSHIFT, 1, t4⟩]).2 = 2 := by
  have hD : DOUBLE_PRESS_DELAY = 1/2 := rfl
  have E1 : processEvent initialState ⟨KEY_RIGHTSHIFT, 1, t1⟩
      = StepOut.mk ⟨⟨[], 0⟩, t1, false, true⟩ [] 0 := by
    rw [processEvent_trigger_arm initialState t1 ?harm]
    case harm =>
      intro hcon
      have h' := hcon.1
      simp only [initialState] at h'
      linarith
    rfl
  have E2 : processEvent ⟨⟨[], 0⟩, t1, false, true⟩ ⟨KEY_RIGHTSHIFT, 0, t1⟩
      = StepOut.mk ⟨⟨[], 0⟩, t1, true, false⟩ [] 0 :=
    processEvent_trigger_up _ _
  have E3 : processEvent ⟨⟨[], 0⟩, t1, true, false⟩ ⟨KEY_RIGHTSHIFT, 1, t2⟩
      = StepOut.mk ⟨⟨[], 0⟩, 0, false, true⟩ (fix_last_word ⟨[], 0⟩) 1 :=
    processEvent_trigger_fire _ _ h3 rfl
  have E4 : processEvent ⟨⟨[], 0⟩, 0, false, true⟩ ⟨KEY_RIGHTSHIFT, 0, t2⟩
      = StepOut.mk ⟨⟨[], 0⟩, 0, true, false⟩ [] 0 :=
    processEvent_trigger_up _ _
  have E5 : processEvent ⟨⟨[], 0⟩, 0, true, false⟩ ⟨KEY_RIGHTSHIFT, 1, t3⟩
      = StepOut.mk ⟨⟨[], 0⟩, t3, false, true⟩ [] 0 := by
    rw [processEvent_trigger_arm _ _ ?harm3]
    case harm3 =>
      intro hcon
      have h' := hcon.1
      simp only at h'
      linarith
  have E6 : processEvent ⟨⟨[], 0⟩, t3, false, true⟩ ⟨KEY_RIGHTSHIFT, 0, t3⟩
      = StepOut.mk ⟨⟨[], 0⟩, t3, true, false⟩ [] 0 :=
    processEvent_trigger_up _ _
  have E7 : processEvent ⟨⟨[], 0⟩, t3, true, false⟩ ⟨KEY_RIGHTSHIFT, 1, t4⟩
      = StepOut.mk ⟨⟨[], 0⟩, 0, false, true⟩ (fix_last_word ⟨[], 0⟩) 1 :=
    processEvent_trigger_fire _ _ h5 rfl
  constructor
  · simp [runEvents, E1, E2, E3, E4, E5]
  · simp [runEvents, E1, E2, E3, E4, E5, E6, E7]

/-- C7 witness: presses at t=1 and t=1.25 (gap 0.25 s) with clean
releases fire once; a third press at t=2 does not, and a fourth at
t=2.25 pairs with it and fires again. -/
theorem c7_witness :
    (runEvents initialState
        [⟨KEY_RIGHTSHIFT, 1, 1⟩, ⟨KEY_RIGHTSHIFT, 0, 1⟩, ⟨KEY_RIGHTSHIFT, 1, 5/4⟩,
         ⟨KEY_RIGHTSHIFT, 0, 5/4⟩, ⟨KEY_RIGHTSHIFT, 1, 2⟩]).2 = 1 ∧
      (runEvents initialState
        [⟨KEY_RIGHTSHIFT, 1, 1⟩, ⟨KEY_RIGHTSHIFT, 0, 1⟩, ⟨KEY_RIGHTSHIFT, 1, 5/4⟩,
         ⟨KEY_RIGHTSHIFT, 0, 5/4⟩, ⟨KEY_RIGHTSHIFT, 1, 2⟩, ⟨KEY_RIGHTSHIFT, 0, 2⟩,
         ⟨KEY_RIGHTSHIFT, 1, 9/4⟩]).2 = 2 :=
  c7_theorem 1 (5/4) 2 (9/4) (by norm_num [DOUBLE_PRESS_DELAY]) (by norm_num)
    (by norm_num [DOUBLE_PRESS_DELAY]) (by norm_num)
    (by norm_num [DOUBLE_PRESS_DELAY])

/-- C9: a trackable keystroke between two trigger presses cancels the
pending arm: trigger presses at T and T+0.3 with a letter at T+0.15
fire no correction (the letter resets last_press_time to 0, and the
second press cannot qualify because T+0.3 is at least the double-press
window away from 0). -/
theorem c9_theorem (T : ℚ) (hT : DOUBLE_PRESS_DELAY ≤ T) :
    (runEvents initialState
        [⟨KEY_RIGHTSHIFT, 1, T⟩, ⟨KEY_RIGHTSHIFT, 0, T⟩,
         ⟨KEY_A, 1, T + 3/20⟩, ⟨KEY_RIGHTSHIFT, 1, T + 3/10⟩]).2 = 0 := by
  have hD : DOUBLE_PRESS_DELAY = 1/2 := rfl
  have hTpos : 0 < T := by rw [hD] at hT; linarith
  have E1 : processEvent initialState ⟨KEY_RIGHTSHIFT, 1, T⟩
      = StepOut.mk ⟨⟨[], 0⟩, T, false, true⟩ [] 0 := by
    rw [processEvent_trigger_arm initialState T ?harm]
    case harm =>
      intro hcon
      have h' := hcon.1
      simp only [initialState] at h'
      linarith
    rfl
  have E2 : processEvent ⟨⟨[], 0⟩, T, false, true⟩ ⟨KEY_RIGHTSHIFT, 0, T⟩
      = StepOut.mk ⟨⟨[], 0⟩, T, true, false⟩ [] 0 :=
    processEvent_trigger_up _ _
  have E3 : processEvent ⟨⟨[], 0⟩, T, true, false⟩ ⟨KEY_A, 1, T + 3/20⟩
      = StepOut.mk
          ⟨(InputBuffer.mk [] 0).add KEY_A false (T + 3/20), 0, true, false⟩ [] 0 := by
    rw [processEvent_key_down _ _ _ (by norm_num [KEY_A, KEY_RIGHTSHIFT])
      (by norm_num [KEY_A, KEY_LEFTSHIFT])]
    simp [hTpos]
  have E4 : processEvent
        ⟨(InputBuffer.mk [] 0).add KEY_A false (T + 3/20), 0, true, false⟩
        ⟨KEY_RIGHTSHIFT, 1, T + 3/10⟩
      = StepOut.mk
          ⟨(InputBuffer.mk [] 0).add KEY_A false (T + 3/20), T + 3/10, false, true⟩
          [] 0 := by
    rw [processEvent_trigger_arm _ _ ?harm4]
    case harm4 =>
      intro hcon
      have h' := hcon.1
      simp only at h'
      rw [hD] at h'
      linarith
  simp [runEvents, E1, E2, E3, E4]

/-- C9 witness: presses at t=1 and t=1.3 with the letter 'a' at t=1.15
fire no correction. -/
theorem c9_witness :
    (runEvents initialState
        [⟨KEY_RIGHTSHIFT, 1, 1⟩, ⟨KEY_RIGHTSHIFT, 0, 1⟩,
         ⟨KEY_A, 1, 1 + 3/20⟩, ⟨KEY_RIGHTSHIFT, 1, 1 + 3/10⟩]).2 = 0 :=
  c9_theorem 1 (by norm_num [DOUBLE_PRESS_DELAY])

end MagShift
